import Mathlib

/-!
A shallow embedding of the job-scheduler daemon in `cli.py`
(`ServerContext`, `Slave`, `JobInfo`, `parse_key_values`, the job
supervisor's completion path) together with theorems about the
scheduling, persistence and error-handling behaviour.

Conventions of the embedding:
* Python's in-place mutation of `ServerContext` / `Slave` objects is
  rendered as explicit state passing; a slave that Python mutates in
  place is replaced at its list index.
* Exceptions are rendered as an explicit error component: a handler
  returns the state as it stands when the exception escapes (Python
  leaves partially applied mutations behind) together with an error
  message; the command loop turns a raised exception into an
  `{err: ...}` response.
* `time.time()` and OS pid allocation are modelled by the counters
  `now` and `next_pid` threaded through the state; file-system side
  effects (`mkdir`, writing the log file) have no state-level effect
  and are dropped, except `_save`, whose written snapshot is modelled
  by the `snapshot` field.
* Python's `dict` built by `parse_key_values` preserves insertion
  order and overwrites in place, which `insertEnv` on an association
  list reproduces.
* `JobInfo.script` / `JobInfo.envs` hold dynamically typed values in
  the source (both call sites of the constructor pass the parsed env
  dict in the `script` position and the argv list in the `envs`
  position); the inductive `JVal` records which of the two shapes a
  field holds.
-/

/-- An environment mapping as Python builds it: an insertion-ordered
association list (`dict` in the source). -/
abbrev Env := List (String × String)

/-- A waitlist entry: `(args, envs)` exactly as `add_job` appends it. -/
abbrev Job := List String × List String

/-- A dynamically typed value stored in a `JobInfo` field: either an argv
list of strings or a parsed environment dict. -/
inductive JVal where
  | argvV (args : List String)
  | envV (d : Env)
deriving DecidableEq, Repr

/-- `JobInfo.__init__(self, id, script, envs, pid, log_file)`: the field
names follow the source; note that both constructor call sites pass the
parsed env dict as `script` and the argv list as `envs`. -/
structure JobInfo where
  id : String
  script : JVal
  envs : JVal
  pid : Nat
  log_file : String
deriving DecidableEq, Repr

/-- The persistable fields of a `Slave` plus `envs`; the transient fields
(`ctx`, `process_waiter`, `_shutdown_event`) carry no state in this
embedding. -/
structure Slave where
  ip : String
  envs : Env
  status : String
  running_job : Option JobInfo
  remove_after_finish : Bool
deriving DecidableEq, Repr

/-- What `Slave.__getstate__` pickles: 3-tuples only occur in legacy
snapshot files, `__getstate__` always writes the 4-tuple. -/
inductive SlaveState where
  | three (ip : String) (status : String) (running_job : Option JobInfo)
  | four (ip : String) (status : String) (running_job : Option JobInfo)
      (remove_after_finish : Bool)
deriving DecidableEq, Repr

/-- The object `Slave.__setstate__` rebuilds: `envs` is not among the
pickled fields, so the unpickled object has no `envs` attribute at all. -/
structure LoadedSlave where
  ip : String
  status : String
  running_job : Option JobInfo
  remove_after_finish : Bool
deriving DecidableEq, Repr

/-- `Slave.__getstate__`. -/
def Slave.getstate (s : Slave) : SlaveState :=
  .four s.ip s.status s.running_job s.remove_after_finish

/-- `Slave.__setstate__`: a legacy 3-tuple defaults
`remove_after_finish` to `False`. -/
def Slave.setstate : SlaveState → LoadedSlave
  | .three ip status rj => ⟨ip, status, rj, false⟩
  | .four ip status rj raf => ⟨ip, status, rj, raf⟩

/-- The persistable server state (`slaves`, `job_waitlist`, `logs_dir`)
plus the model of the environment: `now` (milliseconds clock read for job
ids), `next_pid` (OS pid allocation) and `snapshot` (the content last
written to `server_context.pkl` by `_save`, `none` before the first
save). -/
structure ServerContext where
  slaves : List Slave
  job_waitlist : List Job
  logs_dir : String
  now : Nat
  next_pid : Nat
  snapshot : Option (List SlaveState × List Job)
deriving DecidableEq, Repr

/-- A handler response: `{msg: ...}` or `{err: ...}` (the command loop
maps a raised exception to `{err: str(err)}`). -/
inductive Resp where
  | msg (m : String)
  | err (e : String)
deriving DecidableEq, Repr

/-- Python's `str.split("=")` on the character list: splits at every
`'='`; the empty string yields `[""]`. -/
def splitOnEqChars : List Char → List (List Char)
  | [] => [[]]
  | c :: rest =>
    let r := splitOnEqChars rest
    if c = '=' then [] :: r
    else
      match r with
      | [] => [[c]]
      | g :: gs => (c :: g) :: gs

/-- Python's `env_str.split("=")` destructured as `k, v`: succeeds only
when the split yields exactly two parts. -/
def splitKV (s : String) : Option (String × String) :=
  match (splitOnEqChars s.data).map String.mk with
  | [k, v] => some (k, v)
  | _ => none

/-- The message of the `ValueError` raised by the reserved-name check
inside `parse_key_values`. -/
def reservedEnvMsg (k : String) : String :=
  "Environment name " ++ k ++ " is reserved."

/-- The message of the `ValueError` raised by the bare `except:` arm of
`parse_key_values`. -/
def parseFailMsg (env_str : String) : String :=
  "Failed to parse environment key-value pair: " ++ env_str ++
    ". Every environment variable must be set as <NAME>=<VALUE>."

/-- `envs_dict[k] = v` on an insertion-ordered dict: overwrite in place
if the key exists, append otherwise. -/
def insertEnv (d : Env) (k v : String) : Env :=
  if d.any (fun p => p.1 == k) then
    d.map (fun p => if p.1 == k then (k, v) else p)
  else d ++ [(k, v)]

/-- The body of the `try:` block in `parse_key_values` for one entry:
unpack the split, raise the reserved-name `ValueError` for `JOB_ID` /
`SLAVE_IP`, otherwise insert (a duplicate key only logs a warning). -/
def parseEnvPairTry (d : Env) (env_str : String) : Except String Env :=
  match splitKV env_str with
  | some (k, v) =>
      if k == "JOB_ID" || k == "SLAVE_IP" then .error (reservedEnvMsg k)
      else .ok (insertEnv d k v)
  | none => .error "not enough values to unpack"

/-- `parse_key_values`: the bare `except:` catches every exception of the
`try:` block — including the reserved-name `ValueError` it itself raised —
and replaces it with the generic parse-failure `ValueError`. -/
def parse_key_values (envs : List String) : Except String Env :=
  envs.foldlM
    (fun d env_str =>
      match parseEnvPairTry d env_str with
      | .ok d1 => Except.ok d1
      | .error _ => Except.error (parseFailMsg env_str))
    []

/-- `log_file.replace(" ", "\\ ")`: escape every space of the log-file
path with a backslash. -/
def escapeSpaces (s : String) : String :=
  String.mk (s.data.flatMap (fun c => if c = ' ' then ['\\', ' '] else [c]))

/-- `ServerContext._save`: pickle `(self.slaves, self.job_waitlist)` into
the snapshot file. -/
def ServerContext.save (ctx : ServerContext) : ServerContext :=
  { ctx with snapshot := some (ctx.slaves.map Slave.getstate, ctx.job_waitlist) }

/-- `Slave.run` called on the slave at index `i` of `ctx.slaves` (Python
mutates the object in place). Returns the new state and the message of
the escaped exception, if any. The status is set to `"busy"` before
`parse_key_values(envs)` runs, so a parse failure leaves a busy slave
with no running job and no snapshot written. -/
def ServerContext.runAt (ctx : ServerContext) (i : Nat) (job : Job) :
    ServerContext × Option String :=
  match ctx.slaves[i]? with
  | none => (ctx, none)
  | some s =>
    if s.status ≠ "idle" then (ctx, none)
    else
      let s1 := { s with status := "busy" }
      let job_id := toString ctx.now
      let log_file := escapeSpaces (ctx.logs_dir ++ "/job_" ++ job_id ++ ".txt")
      match parse_key_values job.2 with
      | .error e => ({ ctx with slaves := ctx.slaves.set i s1 }, some e)
      | .ok job_envs =>
        let rj : JobInfo :=
          { id := job_id, script := .envV job_envs, envs := .argvV job.1,
            pid := ctx.next_pid, log_file := log_file }
        let s2 := { s1 with running_job := some rj }
        let ctx1 := { ctx with
          slaves := ctx.slaves.set i s2,
          now := ctx.now + 1, next_pid := ctx.next_pid + 1 }
        (ctx1.save, none)

/-- The `while` loop of `ServerContext.schedule`. The second component is
the Python variable `slave`: `None` until the first `for` iteration runs,
afterwards the last element the scan touched (the assigned slave after a
`break`, the final list element after a scan that found no idle slave).
Fuel is the waitlist length: every iteration pops exactly one job. -/
def scheduleGo : Nat → ServerContext → Option Slave →
    ServerContext × Option Slave × Option String
  | 0, ctx, sv => (ctx, sv, none)
  | fuel + 1, ctx, sv =>
    match ctx.job_waitlist with
    | [] => (ctx, sv, none)
    | job :: rest =>
      match ctx.slaves.findIdx? (fun s => s.status == "idle") with
      | some i =>
        let ctx1 := { ctx with job_waitlist := rest }
        match ctx1.runAt i job with
        | (ctx2, none) => scheduleGo fuel ctx2 ctx2.slaves[i]?
        | (ctx2, some e) => (ctx2, ctx2.slaves[i]?, some e)
      | none =>
        (ctx, (match ctx.slaves.getLast? with
               | some s => some s
               | none => sv), none)

/-- `ServerContext.schedule`. -/
def ServerContext.schedule (ctx : ServerContext) :
    ServerContext × Option Slave × Option String :=
  scheduleGo ctx.job_waitlist.length ctx none

/-- `ServerContext.add_job`: append to the waitlist, save, schedule, then
report. An exception escaping `schedule` (a malformed env reaching
`Slave.run`) becomes the response. -/
def ServerContext.add_job (ctx : ServerContext) (args envs : List String) :
    ServerContext × Resp :=
  let ctx1 := ServerContext.save
    { ctx with job_waitlist := ctx.job_waitlist ++ [(args, envs)] }
  match ctx1.schedule with
  | (ctx2, _, some e) => (ctx2, .err e)
  | (ctx2, sv, none) =>
    if 0 < ctx2.job_waitlist.length then
      (ctx2, .msg "All slaves are busy. Job is added to the waiting list.")
    else
      match sv with
      | some s => (ctx2, .msg ("Job is asigned to " ++ s.ip ++ "."))
      | none => (ctx2, .msg "ServerContext.add_job: This should never be reached.")

/-- `ServerContext.remove_job`: `deque.remove` drops the first structural
match or raises `ValueError`, which the handler catches and reports as a
`{msg}`. -/
def ServerContext.remove_job (ctx : ServerContext) (args envs : List String) :
    ServerContext × Resp :=
  if (args, envs) ∈ ctx.job_waitlist then
    (ServerContext.save
      { ctx with job_waitlist := ctx.job_waitlist.erase (args, envs) },
     .msg "The job is removed from waitlist")
  else
    (ctx, .msg "Failed to remove the job from waitlist: deque.remove(x): x not in deque")

/-- `ServerContext.add_slave`: duplicate addresses are rejected with a
returned `{err}`; `Slave.__init__` parses the env strings (and can raise);
on success the slave is appended idle, the state saved and `schedule`
run. -/
def ServerContext.add_slave (ctx : ServerContext) (ip : String)
    (envs : List String) : ServerContext × Resp :=
  if ctx.slaves.any (fun s => s.ip == ip) then
    (ctx, .err (ip ++ " is already added"))
  else
    match parse_key_values envs with
    | .error e => (ctx, .err e)
    | .ok d =>
      let s : Slave :=
        { ip := ip, envs := d, status := "idle", running_job := none,
          remove_after_finish := false }
      let ctx1 := ServerContext.save { ctx with slaves := ctx.slaves ++ [s] }
      match ctx1.schedule with
      | (ctx2, _, some e) => (ctx2, .err e)
      | (ctx2, _, none) => (ctx2, .msg "ok")

/-- Message of the exception raised for a busy slave removed without
`--wait` or `--kill`. -/
def busySlaveMsg : String :=
  "This slave is currently busy. Use --wait or --kill to remove it."

/-- Message of the exception raised for a slave already marked for
removal. -/
def alreadyMarkedMsg : String :=
  "This slave is already marked for removal. Use --kill to remove it immediate or wait for the job to finish."

/-- `os.kill(pid)` is called with a single argument; `os.kill` requires a
signal number, so this call raises a `TypeError` unconditionally. -/
def osKillTypeErrorMsg : String :=
  "kill() takes exactly 2 arguments (1 given)"

/-- The `for` loop of `remove_slave` building `new_list` (a local, so a
raised exception leaves `self.slaves` untouched). Returns the new list
and the `removed` flag, or the escaped exception's message. -/
def removeSlaveLoop (ip : String) (wait kill : Bool) :
    List Slave → Except String (List Slave × Bool)
  | [] => .ok ([], false)
  | s :: rest =>
    if s.ip == ip then
      if s.status == "idle" then do
        let (l, _) ← removeSlaveLoop ip wait kill rest
        .ok (l, true)
      else if s.remove_after_finish then .error alreadyMarkedMsg
      else if wait then do
        let (l, _) ← removeSlaveLoop ip wait kill rest
        .ok ({ s with remove_after_finish := true } :: l, true)
      else if kill then .error osKillTypeErrorMsg
      else .error busySlaveMsg
    else do
      let (l, r) ← removeSlaveLoop ip wait kill rest
      .ok (s :: l, r)

/-- `ServerContext.remove_slave`: on an exception the assignment
`self.slaves = new_list` never runs and no snapshot is written, so the
state is unchanged. -/
def ServerContext.remove_slave (ctx : ServerContext) (ip : String)
    (wait kill : Bool) : ServerContext × Resp :=
  match removeSlaveLoop ip wait kill ctx.slaves with
  | .error e => (ctx, .err e)
  | .ok (l, removed) =>
    let ctx1 := ServerContext.save { ctx with slaves := l }
    if removed then (ctx1, .msg "ok")
    else (ctx1, .msg ("Cannot find the specific slave with " ++ ip))

/-- The completion path of `_process_waiter` for the slave at index `i`:
clear `running_job`, then either drop the slave from the list
(`remove_after_finish`) or re-idle it, save, and run `schedule`. An
exception escaping `schedule` kills the supervisor thread; the state it
leaves behind is kept. -/
def ServerContext.job_finished (ctx : ServerContext) (i : Nat) : ServerContext :=
  match ctx.slaves[i]? with
  | none => ctx
  | some s =>
    if s.remove_after_finish then
      let ctx1 := { ctx with slaves := ctx.slaves.eraseIdx i }
      ctx1.save.schedule.1
    else
      let s1 := { s with running_job := none, status := "idle" }
      let ctx1 := { ctx with slaves := ctx.slaves.set i s1 }
      ctx1.save.schedule.1

/-- The serialization of a `JobInfo` in the status JSON: `dumper` falls
back to `__dict__`, so the JSON keys mirror the field names. -/
structure JobJson where
  id : String
  script : JVal
  envs : JVal
  pid : Nat
  log_file : String
deriving DecidableEq, Repr

/-- The `envs` member of a slave record in a status JSON file: a
hand-written file holds a list of `K=V` strings (what `Slave.__init__`
expects), while the output of `toJSON` holds the parsed dict. Python's
`for env_str in envs` iterates list elements in the first case and dict
KEYS in the second. -/
inductive EnvsJson where
  | strs (l : List String)
  | dict (d : Env)
deriving DecidableEq, Repr

/-- Iterating an `EnvsJson` the way `parse_key_values`'s `for` loop
does. -/
def EnvsJson.pyIter : EnvsJson → List String
  | .strs l => l
  | .dict d => d.map Prod.fst

/-- A slave record in the status JSON: `remove_after_finish` is only
present when true in `toJSON` output, and `load_status` tolerates its
absence. -/
structure SlaveJson where
  ip : String
  envs : EnvsJson
  status : String
  running_job : Option JobJson
  remove_after_finish : Option Bool
deriving DecidableEq, Repr

/-- The status JSON document. -/
structure StatusJson where
  job_waitlist : List Job
  slaves : List SlaveJson
deriving DecidableEq, Repr

/-- The slave part of `ServerContext.toJSON`: `envs` is the parsed dict;
the `remove_after_finish` key is emitted only when the flag is true. -/
def Slave.toJson (s : Slave) : SlaveJson :=
  { ip := s.ip, envs := .dict s.envs, status := s.status,
    running_job := s.running_job.map (fun j =>
      { id := j.id, script := j.script, envs := j.envs, pid := j.pid,
        log_file := j.log_file }),
    remove_after_finish := if s.remove_after_finish then some true else none }

/-- `ServerContext.toJSON` (the response of the `status` command). -/
def ServerContext.toJSON (ctx : ServerContext) : StatusJson :=
  { job_waitlist := ctx.job_waitlist, slaves := ctx.slaves.map Slave.toJson }

/-- One iteration of `load_status`'s slave-rebuilding loop:
`Slave(slave["ip"], slave["envs"], self)` runs `parse_key_values` over the
iteration of the JSON `envs` member (dict keys for `toJSON` output!), and
the `JobInfo` constructor receives `job_info["envs"]` in its `script`
position and `job_info["script"]` in its `envs` position. -/
def loadSlaveJson (sj : SlaveJson) : Except String Slave :=
  match parse_key_values sj.envs.pyIter with
  | .error e => .error e
  | .ok d =>
    let s1 : Slave :=
      { ip := sj.ip, envs := d, status := sj.status, running_job := none,
        remove_after_finish := sj.remove_after_finish.getD false }
    match sj.running_job with
    | none => .ok s1
    | some ji =>
      let rj : JobInfo :=
        { id := ji.id, script := ji.envs, envs := ji.script, pid := ji.pid,
          log_file := ji.log_file }
      .ok { s1 with running_job := some rj }

/-- The slave loop of `load_status`: appends to `self.slaves` one slave at
a time, so an exception leaves the already-rebuilt prefix behind. -/
def loadSlavesGo (ctx : ServerContext) :
    List SlaveJson → ServerContext × Resp
  | [] => (ctx.save, .msg "ok")
  | sj :: rest =>
    match loadSlaveJson sj with
    | .error e => (ctx, .err e)
    | .ok s => loadSlavesGo ({ ctx with slaves := ctx.slaves ++ [s] }) rest

/-- `ServerContext.load_status` on an already-parsed JSON document:
`self.job_waitlist` and `self.slaves` are overwritten before the loop, so
a mid-loop exception leaves a partially rebuilt state. -/
def ServerContext.load_status (ctx : ServerContext) (j : StatusJson) :
    ServerContext × Resp :=
  loadSlavesGo { ctx with job_waitlist := j.job_waitlist, slaves := [] } j.slaves

/-- The number of idle slaves. -/
def idleCount (l : List Slave) : Nat :=
  (l.filter (fun s => s.status == "idle")).length

/-- `true` iff `parse_key_values` succeeds on these env strings. -/
def parseOk (envs : List String) : Bool :=
  match parse_key_values envs with
  | .ok _ => true
  | .error _ => false

/-- The snapshot file content matches the in-memory state. -/
abbrev snapshotCurrent (ctx : ServerContext) : Prop :=
  ctx.snapshot = some (ctx.slaves.map Slave.getstate, ctx.job_waitlist)

/-- The persisted view of a slave: what unpickling its `__getstate__`
restores (everything except the transient fields and the dropped
`envs`). -/
def Slave.toLoaded (s : Slave) : LoadedSlave :=
  ⟨s.ip, s.status, s.running_job, s.remove_after_finish⟩

/-- `_process_waiter`'s completion path with the exception escaping
`schedule` (which would kill the supervisor thread) made explicit. -/
def ServerContext.job_finishedE (ctx : ServerContext) (i : Nat) :
    ServerContext × Option String :=
  match ctx.slaves[i]? with
  | none => (ctx, none)
  | some s =>
    if s.remove_after_finish then
      let ctx1 := { ctx with slaves := ctx.slaves.eraseIdx i }
      let r := ctx1.save.schedule
      (r.1, r.2.2)
    else
      let s1 := { s with running_job := none, status := "idle" }
      let ctx1 := { ctx with slaves := ctx.slaves.set i s1 }
      let r := ctx1.save.schedule
      (r.1, r.2.2)

/-- A mutating operation of the state store (the job-completion path
included). -/
inductive MutOp where
  | addJob (args envs : List String)
  | removeJob (args envs : List String)
  | addSlave (ip : String) (envs : List String)
  | removeSlave (ip : String) (wait kill : Bool)
  | loadStatus (j : StatusJson)
  | jobFinished (i : Nat)

/-- Run one mutating operation; `jobFinished` reports an exception that
escaped `schedule` (killing the supervisor thread) as an `{err}`. -/
def applyOp (ctx : ServerContext) : MutOp → ServerContext × Resp
  | .addJob args envs => ctx.add_job args envs
  | .removeJob args envs => ctx.remove_job args envs
  | .addSlave ip envs => ctx.add_slave ip envs
  | .removeSlave ip wait kill => ctx.remove_slave ip wait kill
  | .loadStatus j => ctx.load_status j
  | .jobFinished i =>
    match ctx.job_finishedE i with
    | (c, none) => (c, .msg "")
    | (c, some e) => (c, .err e)

/-- The empty freshly started server (no snapshot file yet); the clock
and pid counters are arbitrary concrete values. -/
def ctxEmpty : ServerContext :=
  { slaves := [], job_waitlist := [], logs_dir := "logs", now := 1000,
    next_pid := 50, snapshot := none }

/-- One idle worker registered. -/
def ctxOneIdle : ServerContext := (ctxEmpty.add_slave "10.0.0.1" []).1

/-- Two idle workers registered, in this order. -/
def ctxTwoIdle : ServerContext := (ctxOneIdle.add_slave "10.0.0.2" []).1

/-- The spec's scenario: two idle workers, then
`add_job(J1); add_job(J2); add_job(J3)`. -/
def ctxAfter3 : ServerContext :=
  (((ctxTwoIdle.add_job ["./J1.sh"] []).1.add_job ["./J2.sh"] []).1.add_job
    ["./J3.sh"] []).1

/-- One worker registered with a non-empty `env_defaults`. -/
def ctxEnvSlave : ServerContext := (ctxEmpty.add_slave "h" ["A=1"]).1

/-- A status JSON file whose two worker records share an address. -/
def dupStatusJson : StatusJson :=
  { job_waitlist := [],
    slaves := [
      { ip := "a", envs := .strs [], status := "idle", running_job := none,
        remove_after_finish := none },
      { ip := "a", envs := .strs [], status := "idle", running_job := none,
        remove_after_finish := none }] }

/-- Claim C8: a persisted worker record with only three fields
`(address, status, running_job)` loads with `remove_after_finish`
defaulting to false, while a four-field record restores all four
fields. -/
theorem C8_setstate_legacy :
    (∀ (ip status : String) (rj : Option JobInfo),
      Slave.setstate (.three ip status rj) = ⟨ip, status, rj, false⟩) ∧
    (∀ (ip status : String) (rj : Option JobInfo) (raf : Bool),
      Slave.setstate (.four ip status rj raf) = ⟨ip, status, rj, raf⟩) :=
  ⟨fun _ _ _ => rfl, fun _ _ _ _ => rfl⟩

/-- Claim C4 (code behaviour at the claimed input): with an idle worker,
`add_job` with `envs=["JOB_ID=x"]` responds with the generic
parse-failure error — the reserved-name `ValueError` (raised inside
`parse_key_values`'s `try:` block) is swallowed by its own bare `except:`
— and with no idle worker the job is accepted with a success message, so
the response is never `{err: "Environment name JOB_ID is reserved."}`. -/
theorem C4_reserved_env_response :
    (ctxOneIdle.add_job ["./job.sh"] ["JOB_ID=x"]).2 =
      .err (parseFailMsg "JOB_ID=x") ∧
    (ctxOneIdle.add_job ["./job.sh"] ["JOB_ID=x"]).2 ≠
      .err (reservedEnvMsg "JOB_ID") ∧
    (ctxAfter3.add_job ["./job.sh"] ["JOB_ID=x"]).2 =
      .msg "All slaves are busy. Job is added to the waiting list." ∧
    parseEnvPairTry [] "JOB_ID=x" = .error (reservedEnvMsg "JOB_ID") ∧
    parse_key_values ["JOB_ID=x"] = .error (parseFailMsg "JOB_ID=x") ∧
    parse_key_values ["SLAVE_IP=x"] = .error (parseFailMsg "SLAVE_IP=x") := by
  refine ⟨by decide, by decide, by decide, by rfl, by rfl, by rfl⟩

/-- Claim C2, counterexample: on the reachable state with one worker whose
`env_defaults` is `{"A": "1"}`, `load_status` applied to the exact output
of `status` raises (iterating the serialized env dict yields bare keys,
which fail the `K=V` split) after having already cleared the workers
list, so the observable state is changed, not preserved. -/
theorem C2_counterexample :
    (ctxEnvSlave.load_status ctxEnvSlave.toJSON).2 =
      .err (parseFailMsg "A") ∧
    (ctxEnvSlave.load_status ctxEnvSlave.toJSON).1.slaves = [] ∧
    ctxEnvSlave.slaves ≠ [] := by
  refine ⟨by decide, by decide, by decide⟩

/-- Claim C3, counterexample: `Slave.__getstate__` omits `envs`, so the
snapshots written by `_save` after registering a worker with
`env_defaults = {"A": "1"}` and after registering one with empty
`env_defaults` coincide although the in-memory states differ in
`env_defaults` — reloading the snapshot cannot restore `env_defaults`. -/
theorem C3_counterexample :
    ctxEnvSlave.snapshot = (ctxEmpty.add_slave "h" []).1.snapshot ∧
    ctxEnvSlave.snapshot ≠ none ∧
    ctxEnvSlave.slaves.map Slave.envs ≠
      (ctxEmpty.add_slave "h" []).1.slaves.map Slave.envs := by
  refine ⟨by decide, by decide, by decide⟩

/-- Claim C6, counterexample: `load_status` performs no duplicate-address
check, so loading a file whose worker records share the address `"a"`
succeeds and leaves two workers with the same address in the store. -/
theorem C6_counterexample :
    (ctxEmpty.load_status dupStatusJson).2 = .msg "ok" ∧
    ((ctxEmpty.load_status dupStatusJson).1.slaves.map Slave.ip) = ["a", "a"] ∧
    ¬ ((ctxEmpty.load_status dupStatusJson).1.slaves.map Slave.ip).Nodup := by
  refine ⟨by decide, by decide, by decide⟩

/-- Claim C7, counterexample: on the reachable state with two busy workers
and `waitlist = [J3]`, `schedule` assigns nothing (the waitlist and the
workers are unchanged) yet returns the last worker its scan touched
rather than `None`. -/
theorem C7_counterexample :
    ctxAfter3.schedule.1 = ctxAfter3 ∧
    ctxAfter3.schedule.2.1 = ctxAfter3.slaves[1]? ∧
    ctxAfter3.schedule.2.1 ≠ none := by
  refine ⟨by decide, by decide, by decide⟩

theorem map_set_of_eq {α β : Type} (f : α → β) (l : List α) (i : Nat) (a b : α)
    (h : l[i]? = some a) (hfb : f b = f a) : (l.set i b).map f = l.map f := by
  induction l generalizing i with
  | nil => simp at h
  | cons x xs ih =>
    cases i with
    | zero =>
      simp only [List.getElem?_cons_zero, Option.some.injEq] at h
      subst h
      simp [hfb]
    | succ n =>
      simp only [List.getElem?_cons_succ] at h
      simp [ih n h]

theorem idleCount_set_of_busy (l : List Slave) (i : Nat) (s s' : Slave)
    (h : l[i]? = some s) (hs : s.status = "idle") (hs' : s'.status ≠ "idle") :
    idleCount (l.set i s') + 1 = idleCount l := by
  have hb : (s'.status == "idle") = false := by
    simp [hs']
  induction l generalizing i with
  | nil => simp at h
  | cons x xs ih =>
    cases i with
    | zero =>
      simp only [List.getElem?_cons_zero, Option.some.injEq] at h
      subst h
      simp [idleCount, List.filter_cons, hb, hs]
    | succ n =>
      simp only [List.getElem?_cons_succ] at h
      have := ih n h
      simp only [List.set_cons_succ, idleCount, List.filter_cons] at this ⊢
      split <;> simpa [Nat.add_right_comm] using this

theorem idleCount_pos (l : List Slave) (i : Nat) (s : Slave)
    (h : l[i]? = some s) (hs : s.status = "idle") : 0 < idleCount l := by
  have hmem : s ∈ l := List.getElem?_mem h
  have : s ∈ l.filter (fun t => t.status == "idle") :=
    List.mem_filter.mpr ⟨hmem, by simp [hs]⟩
  exact List.length_pos_of_mem this

theorem idleCount_eq_zero (l : List Slave)
    (h : ∀ s ∈ l, (s.status == "idle") = false) : idleCount l = 0 := by
  simp only [idleCount, List.length_eq_zero, List.filter_eq_nil_iff]
  intro s hmem
  simp [h s hmem]

/-- The `JobInfo` that `Slave.run` builds for a job launched in state
`ctx` (env dict `d`): note the swapped `script`/`envs` arguments at the
constructor call site. -/
def launchedJobInfo (ctx : ServerContext) (job : Job) (d : Env) : JobInfo :=
  { id := toString ctx.now, script := .envV d, envs := .argvV job.1,
    pid := ctx.next_pid,
    log_file := escapeSpaces (ctx.logs_dir ++ "/job_" ++ toString ctx.now ++ ".txt") }

theorem runAt_spec (ctx : ServerContext) (i : Nat) (job : Job) (s : Slave) (d : Env)
    (h : ctx.slaves[i]? = some s) (hs : s.status = "idle")
    (hp : parse_key_values job.2 = .ok d) :
    ctx.runAt i job =
      (ServerContext.save { ctx with
        slaves := ctx.slaves.set i
          { s with status := "busy", running_job := some (launchedJobInfo ctx job d) },
        now := ctx.now + 1, next_pid := ctx.next_pid + 1 }, none) := by
  unfold ServerContext.runAt
  rw [h]
  simp only [hs, hp, launchedJobInfo]
  rfl

theorem runAt_waitlist (ctx : ServerContext) (i : Nat) (job : Job) :
    (ctx.runAt i job).1.job_waitlist = ctx.job_waitlist := by
  unfold ServerContext.runAt
  rcases hg : ctx.slaves[i]? with _ | s
  · rfl
  · by_cases hs : s.status = "idle"
    · simp only [hs]
      rcases hp : parse_key_values job.2 with e | d <;> simp [ServerContext.save]
    · simp [hs]

theorem runAt_map_ip (ctx : ServerContext) (i : Nat) (job : Job) :
    (ctx.runAt i job).1.slaves.map Slave.ip = ctx.slaves.map Slave.ip := by
  unfold ServerContext.runAt
  rcases hg : ctx.slaves[i]? with _ | s
  · rfl
  · by_cases hs : s.status = "idle"
    · simp only [hs]
      rcases hp : parse_key_values job.2 with e | d
      · simpa using map_set_of_eq Slave.ip ctx.slaves i s _ hg rfl
      · simp only [ServerContext.save]
        simpa using map_set_of_eq Slave.ip ctx.slaves i s _ hg rfl
    · simp [hs]

theorem runAt_snapshot (ctx : ServerContext) (i : Nat) (job : Job)
    (hc : snapshotCurrent ctx) (he : (ctx.runAt i job).2 = none) :
    snapshotCurrent (ctx.runAt i job).1 := by
  unfold ServerContext.runAt at he ⊢
  rcases hg : ctx.slaves[i]? with _ | s
  · exact hc
  · by_cases hs : s.status = "idle"
    · simp only [hg, hs] at he ⊢
      rcases hp : parse_key_values job.2 with e | d
      · simp [hp] at he
      · simp [hp, ServerContext.save, snapshotCurrent]
    · simp only [hg, if_pos hs]
      exact hc

theorem scheduleGo_nil (fuel : Nat) (ctx : ServerContext) (sv : Option Slave)
    (hw : ctx.job_waitlist = []) : scheduleGo (fuel + 1) ctx sv = (ctx, sv, none) := by
  simp only [scheduleGo]
  rw [hw]

theorem scheduleGo_noidle (fuel : Nat) (ctx : ServerContext) (sv : Option Slave)
    (job : Job) (rest : List Job) (hw : ctx.job_waitlist = job :: rest)
    (hf : ctx.slaves.findIdx? (fun s => s.status == "idle") = none) :
    scheduleGo (fuel + 1) ctx sv =
      (ctx, (match ctx.slaves.getLast? with
             | some s => some s
             | none => sv), none) := by
  simp only [scheduleGo]
  rw [hw, hf]

theorem scheduleGo_step_ok (fuel : Nat) (ctx : ServerContext) (sv : Option Slave)
    (job : Job) (rest : List Job) (i : Nat) (ctx2 : ServerContext)
    (hw : ctx.job_waitlist = job :: rest)
    (hf : ctx.slaves.findIdx? (fun s => s.status == "idle") = some i)
    (hr : ({ ctx with job_waitlist := rest } : ServerContext).runAt i job = (ctx2, none)) :
    scheduleGo (fuel + 1) ctx sv = scheduleGo fuel ctx2 ctx2.slaves[i]? := by
  simp only [scheduleGo]
  rw [hw, hf]
  change (match ({ ctx with job_waitlist := rest } : ServerContext).runAt i job with
          | (c2, none) => scheduleGo fuel c2 c2.slaves[i]?
          | (c2, some e) => (c2, c2.slaves[i]?, some e)) = _
  rw [hr]

theorem scheduleGo_step_err (fuel : Nat) (ctx : ServerContext) (sv : Option Slave)
    (job : Job) (rest : List Job) (i : Nat) (ctx2 : ServerContext) (e : String)
    (hw : ctx.job_waitlist = job :: rest)
    (hf : ctx.slaves.findIdx? (fun s => s.status == "idle") = some i)
    (hr : ({ ctx with job_waitlist := rest } : ServerContext).runAt i job = (ctx2, some e)) :
    scheduleGo (fuel + 1) ctx sv = (ctx2, ctx2.slaves[i]?, some e) := by
  simp only [scheduleGo]
  rw [hw, hf]
  change (match ({ ctx with job_waitlist := rest } : ServerContext).runAt i job with
          | (c2, none) => scheduleGo fuel c2 c2.slaves[i]?
          | (c2, some e) => (c2, c2.slaves[i]?, some e)) = _
  rw [hr]

theorem save_snapshotCurrent (ctx : ServerContext) : snapshotCurrent ctx.save := rfl

theorem findIdx_idle_spec (l : List Slave) (i : Nat)
    (hf : l.findIdx? (fun s => s.status == "idle") = some i) :
    ∃ s, l[i]? = some s ∧ s.status = "idle" := by
  rw [List.findIdx?_eq_some_iff_getElem] at hf
  obtain ⟨h, hp, _⟩ := hf
  exact ⟨l[i], List.getElem?_eq_getElem h, by simpa using hp⟩

theorem runAt_idle_snapshot (ctx : ServerContext) (i : Nat) (job : Job) (s : Slave)
    (h : ctx.slaves[i]? = some s) (hs : s.status = "idle")
    (he : (ctx.runAt i job).2 = none) : snapshotCurrent (ctx.runAt i job).1 := by
  unfold ServerContext.runAt at he ⊢
  rw [h] at he ⊢
  simp only [hs] at he ⊢
  rcases hp : parse_key_values job.2 with e | d
  · simp [hp] at he
  · simp only [hp]
    exact save_snapshotCurrent _

theorem scheduleGo_map_ip (fuel : Nat) :
    ∀ (ctx : ServerContext) (sv : Option Slave),
    (scheduleGo fuel ctx sv).1.slaves.map Slave.ip = ctx.slaves.map Slave.ip := by
  induction fuel with
  | zero => intro ctx sv; rfl
  | succ n ih =>
    intro ctx sv
    rcases hw : ctx.job_waitlist with _ | ⟨job, rest⟩
    · rw [scheduleGo_nil n ctx sv hw]
    · rcases hf : ctx.slaves.findIdx? (fun s => s.status == "idle") with _ | i
      · rw [scheduleGo_noidle n ctx sv job rest hw hf]
      · rcases hr : ({ ctx with job_waitlist := rest } : ServerContext).runAt i job
          with ⟨ctx2, oe⟩
        have hmap : ctx2.slaves.map Slave.ip = ctx.slaves.map Slave.ip := by
          have := runAt_map_ip ({ ctx with job_waitlist := rest }) i job
          rw [hr] at this
          exact this
        cases oe with
        | none =>
          rw [scheduleGo_step_ok n ctx sv job rest i ctx2 hw hf hr]
          rw [ih ctx2 ctx2.slaves[i]?]
          exact hmap
        | some e =>
          rw [scheduleGo_step_err n ctx sv job rest i ctx2 e hw hf hr]
          exact hmap

theorem scheduleGo_snapshot (fuel : Nat) :
    ∀ (ctx : ServerContext) (sv : Option Slave),
    snapshotCurrent ctx → (scheduleGo fuel ctx sv).2.2 = none →
    snapshotCurrent (scheduleGo fuel ctx sv).1 := by
  induction fuel with
  | zero => intro ctx sv hc _; exact hc
  | succ n ih =>
    intro ctx sv hc he
    rcases hw : ctx.job_waitlist with _ | ⟨job, rest⟩
    · rw [scheduleGo_nil n ctx sv hw]
      exact hc
    · rcases hf : ctx.slaves.findIdx? (fun s => s.status == "idle") with _ | i
      · rw [scheduleGo_noidle n ctx sv job rest hw hf]
        exact hc
      · rcases hr : ({ ctx with job_waitlist := rest } : ServerContext).runAt i job
          with ⟨ctx2, oe⟩
        obtain ⟨s, hg, hs⟩ := findIdx_idle_spec ctx.slaves i hf
        cases oe with
        | none =>
          rw [scheduleGo_step_ok n ctx sv job rest i ctx2 hw hf hr] at he ⊢
          have hc2 : snapshotCurrent ctx2 := by
            have := runAt_idle_snapshot ({ ctx with job_waitlist := rest }) i job s hg hs
              (by rw [hr])
            rw [hr] at this
            exact this
          exact ih ctx2 ctx2.slaves[i]? hc2 he
        | some e =>
          rw [scheduleGo_step_err n ctx sv job rest i ctx2 e hw hf hr] at he
          simp at he

theorem parseOk_exists (envs : List String) (h : parseOk envs = true) :
    ∃ d, parse_key_values envs = .ok d := by
  unfold parseOk at h
  rcases hp : parse_key_values envs with e | d
  · rw [hp] at h; simp at h
  · exact ⟨d, rfl⟩

theorem runAt_idle_idleCount (ctx : ServerContext) (i : Nat) (job : Job) (s : Slave)
    (d : Env) (h : ctx.slaves[i]? = some s) (hs : s.status = "idle")
    (hd : parse_key_values job.2 = .ok d) :
    idleCount (ctx.runAt i job).1.slaves + 1 = idleCount ctx.slaves := by
  rw [runAt_spec ctx i job s d h hs hd]
  exact idleCount_set_of_busy ctx.slaves i s _ h hs (by simp)

theorem scheduleGo_drain (wl : List Job) :
    ∀ (ctx : ServerContext) (sv : Option Slave),
    ctx.job_waitlist = wl →
    (∀ j ∈ wl, parseOk j.2 = true) →
    (scheduleGo wl.length ctx sv).2.2 = none ∧
    (scheduleGo wl.length ctx sv).1.job_waitlist =
      wl.drop (min (idleCount ctx.slaves) wl.length) ∧
    idleCount (scheduleGo wl.length ctx sv).1.slaves =
      idleCount ctx.slaves - min (idleCount ctx.slaves) wl.length := by
  induction wl with
  | nil =>
    intro ctx sv hw _
    refine ⟨rfl, ?_, ?_⟩ <;> simp [scheduleGo, hw]
  | cons job rest ih =>
    intro ctx sv hw hp
    rcases hf : ctx.slaves.findIdx? (fun s => s.status == "idle") with _ | i
    · have hni := List.findIdx?_eq_none_iff.mp hf
      have hic : idleCount ctx.slaves = 0 := idleCount_eq_zero _ hni
      rw [List.length_cons, scheduleGo_noidle rest.length ctx sv job rest hw hf]
      exact ⟨rfl, by simp [hic, hw], by simp [hic]⟩
    · obtain ⟨s, hg, hs⟩ := findIdx_idle_spec ctx.slaves i hf
      have hpj : parseOk job.2 = true := hp job (List.mem_cons_self job rest)
      obtain ⟨d, hd⟩ := parseOk_exists job.2 hpj
      have hg1 : ({ ctx with job_waitlist := rest } : ServerContext).slaves[i]? = some s := hg
      obtain ⟨ctx2, hctx2⟩ :
          ∃ c, ({ ctx with job_waitlist := rest } : ServerContext).runAt i job = (c, none) :=
        ⟨_, runAt_spec ({ ctx with job_waitlist := rest }) i job s d hg1 hs hd⟩
      rw [List.length_cons,
        scheduleGo_step_ok rest.length ctx sv job rest i ctx2 hw hf hctx2]
      have hwl2 : ctx2.job_waitlist = rest := by
        have h1 := runAt_waitlist ({ ctx with job_waitlist := rest }) i job
        rw [hctx2] at h1
        exact h1
      have hidle2 : idleCount ctx2.slaves + 1 = idleCount ctx.slaves := by
        have h1 := runAt_idle_idleCount ({ ctx with job_waitlist := rest }) i job s d hg1 hs hd
        rw [hctx2] at h1
        exact h1
      obtain ⟨herr, hwl, hidle⟩ :=
        ih ctx2 ctx2.slaves[i]? hwl2 (fun j hj => hp j (List.mem_cons_of_mem job hj))
      refine ⟨herr, ?_, ?_⟩
      · rw [hwl, ← hidle2, Nat.succ_min_succ, List.drop_succ_cons]
      · rw [hidle, ← hidle2, Nat.succ_min_succ]
        omega

theorem runAt_idle_result_at (ctx : ServerContext) (i : Nat) (job : Job) (s : Slave)
    (d : Env) (h : ctx.slaves[i]? = some s) (hs : s.status = "idle")
    (hd : parse_key_values job.2 = .ok d) :
    (ctx.runAt i job).1.slaves[i]? = some
      { s with status := "busy", running_job := some (launchedJobInfo ctx job d) } := by
  rw [runAt_spec ctx i job s d h hs hd]
  obtain ⟨hlt, -⟩ := List.getElem?_eq_some.mp h
  exact List.getElem?_set_self hlt

theorem scheduleGo_last_assigned (wl : List Job) :
    ∀ (ctx : ServerContext) (sv : Option Slave) (jl : Job),
    ctx.job_waitlist = wl → wl.getLast? = some jl →
    (∀ j ∈ wl, parseOk j.2 = true) →
    wl.length ≤ idleCount ctx.slaves →
    ∃ w rj, (scheduleGo wl.length ctx sv).2.1 = some w ∧
      w.running_job = some rj ∧ rj.envs = .argvV jl.1 ∧ w.status = "busy" := by
  induction wl with
  | nil => intro ctx sv jl _ hl _ _; simp at hl
  | cons job rest ih =>
    intro ctx sv jl hw hl hp hlen
    have hpos : 0 < idleCount ctx.slaves :=
      Nat.lt_of_lt_of_le (Nat.succ_pos rest.length) hlen
    rcases hf : ctx.slaves.findIdx? (fun s => s.status == "idle") with _ | i
    · have hni := List.findIdx?_eq_none_iff.mp hf
      have := idleCount_eq_zero ctx.slaves hni
      omega
    · obtain ⟨s, hg, hs⟩ := findIdx_idle_spec ctx.slaves i hf
      have hpj := hp job (List.mem_cons_self job rest)
      obtain ⟨d, hd⟩ := parseOk_exists job.2 hpj
      have hg1 : ({ ctx with job_waitlist := rest } : ServerContext).slaves[i]? = some s := hg
      obtain ⟨ctx2, hctx2⟩ :
          ∃ c, ({ ctx with job_waitlist := rest } : ServerContext).runAt i job = (c, none) :=
        ⟨_, runAt_spec ({ ctx with job_waitlist := rest }) i job s d hg1 hs hd⟩
      have hat := runAt_idle_result_at ({ ctx with job_waitlist := rest }) i job s d hg1 hs hd
      rw [hctx2] at hat
      cases rest with
      | nil =>
        have hjl : job = jl := by simpa using hl
        subst hjl
        simp only [List.length_cons, List.length_nil]
        rw [scheduleGo_step_ok 0 ctx sv job [] i ctx2 hw hf hctx2]
        exact ⟨_, launchedJobInfo ({ ctx with job_waitlist := ([] : List Job) }) job d,
          hat, rfl, rfl, rfl⟩
      | cons r rs =>
        have hl' : (r :: rs).getLast? = some jl := by
          rw [← hl]; rfl
        have hwl2 : ctx2.job_waitlist = r :: rs := by
          have h1 := runAt_waitlist ({ ctx with job_waitlist := r :: rs }) i job
          rw [hctx2] at h1
          exact h1
        have hidle2 : idleCount ctx2.slaves + 1 = idleCount ctx.slaves := by
          have h1 := runAt_idle_idleCount ({ ctx with job_waitlist := r :: rs }) i job s d hg1 hs hd
          rw [hctx2] at h1
          exact h1
        have hlen2 : (r :: rs).length ≤ idleCount ctx2.slaves := by
          simp only [List.length_cons] at hlen ⊢
          omega
        rw [List.length_cons, scheduleGo_step_ok (r :: rs).length ctx sv job (r :: rs) i ctx2 hw hf hctx2]
        exact ih ctx2 ctx2.slaves[i]? jl hwl2 hl'
          (fun j hj => hp j (List.mem_cons_of_mem job hj)) hlen2

/-- Claim C1: on any state whose waiting jobs have parseable env lists, a
single `schedule` call raises nothing, removes exactly
`min(idle workers, waiting jobs)` jobs from the front of the FIFO
waitlist, and turns exactly that many idle workers busy; and in the
spec's concrete scenario (two idle workers, then
`add_job(J1); add_job(J2); add_job(J3)`) the first-registered worker runs
J1, the second runs J2, and the waitlist is exactly `[J3]`. -/
theorem C1_schedule_min_assignments (ctx : ServerContext)
    (hp : ∀ j ∈ ctx.job_waitlist, parseOk j.2 = true) :
    (ctx.schedule.2.2 = none ∧
     ctx.schedule.1.job_waitlist =
       ctx.job_waitlist.drop (min (idleCount ctx.slaves) ctx.job_waitlist.length) ∧
     idleCount ctx.schedule.1.slaves =
       idleCount ctx.slaves - min (idleCount ctx.slaves) ctx.job_waitlist.length) ∧
    (ctxAfter3.job_waitlist = [(["./J3.sh"], [])] ∧
     ctxAfter3.slaves.map (fun s => (s.ip, s.status, s.running_job.map JobInfo.envs)) =
       [("10.0.0.1", "busy", some (.argvV ["./J1.sh"])),
        ("10.0.0.2", "busy", some (.argvV ["./J2.sh"]))]) := by
  refine ⟨scheduleGo_drain ctx.job_waitlist ctx none rfl hp, by decide, by decide⟩

theorem C1_schedule_min_assignments_witness :
    (∀ j ∈ ctxAfter3.job_waitlist, parseOk j.2 = true) ∧
    ctxAfter3.schedule.2.2 = none :=
  ⟨by decide, (C1_schedule_min_assignments ctxAfter3 (by decide)).1.1⟩

theorem add_job_eq_err (ctx : ServerContext) (args envs : List String)
    (c2 : ServerContext) (sv : Option Slave) (e : String)
    (hs : (ServerContext.save
        { ctx with job_waitlist := ctx.job_waitlist ++ [(args, envs)] }).schedule =
      (c2, sv, some e)) :
    ctx.add_job args envs = (c2, .err e) := by
  simp only [ServerContext.add_job]
  rw [hs]

theorem add_job_eq_ok (ctx : ServerContext) (args envs : List String)
    (c2 : ServerContext) (sv : Option Slave)
    (hs : (ServerContext.save
        { ctx with job_waitlist := ctx.job_waitlist ++ [(args, envs)] }).schedule =
      (c2, sv, none)) :
    ctx.add_job args envs =
      (if 0 < c2.job_waitlist.length then
        (c2, .msg "All slaves are busy. Job is added to the waiting list.")
       else
        match sv with
        | some s => (c2, .msg ("Job is asigned to " ++ s.ip ++ "."))
        | none => (c2, .msg "ServerContext.add_job: This should never be reached.")) := by
  simp only [ServerContext.add_job]
  rw [hs]

/-- Claim C7 (amended): `schedule`'s return value is the Python loop
variable, i.e. the last worker the scan touched. (a) When the waitlist is
non-empty but no worker is idle, it assigns nothing yet returns the LAST
worker of the (non-empty) list — a worker it merely scanned. (b) When the
waitlist is drained (enough idle workers, parseable envs), the returned
worker is the one that received the last waitlist job, i.e. the last
worker assigned. (c) `add_job`'s "Job is asigned to ..." message names
that worker, which carries the job just submitted. -/
theorem C7_schedule_return_value (ctx : ServerContext) :
    (∀ job rest, ctx.job_waitlist = job :: rest →
      (∀ s ∈ ctx.slaves, s.status ≠ "idle") →
      ctx.schedule = (ctx, ctx.slaves.getLast?, none)) ∧
    (∀ jl, ctx.job_waitlist.getLast? = some jl →
      (∀ j ∈ ctx.job_waitlist, parseOk j.2 = true) →
      ctx.job_waitlist.length ≤ idleCount ctx.slaves →
      ∃ w rj, ctx.schedule.2.1 = some w ∧ w.running_job = some rj ∧
        rj.envs = .argvV jl.1 ∧ w.status = "busy") ∧
    (∀ args envs, parseOk envs = true →
      (∀ j ∈ ctx.job_waitlist, parseOk j.2 = true) →
      ctx.job_waitlist.length + 1 ≤ idleCount ctx.slaves →
      ∃ w : Slave, (ctx.add_job args envs).2 = .msg ("Job is asigned to " ++ w.ip ++ ".") ∧
        ∃ rj : JobInfo, w.running_job = some rj ∧ rj.envs = .argvV args ∧ w.status = "busy") := by
  refine ⟨?_, ?_, ?_⟩
  · intro job rest hw hni
    have hni' : ∀ s ∈ ctx.slaves, (s.status == "idle") = false := by
      intro s hm
      simpa using hni s hm
    have hf : ctx.slaves.findIdx? (fun s => s.status == "idle") = none :=
      List.findIdx?_eq_none_iff.mpr hni'
    show scheduleGo ctx.job_waitlist.length ctx none = _
    rw [hw, List.length_cons, scheduleGo_noidle rest.length ctx none job rest hw hf]
    rcases hg : ctx.slaves.getLast? with _ | s <;> rfl
  · intro jl hl hp hlen
    exact scheduleGo_last_assigned ctx.job_waitlist ctx none jl rfl hl hp hlen
  · intro args envs hpe hp hlen
    have hp' : ∀ j ∈ ctx.job_waitlist ++ [(args, envs)], parseOk j.2 = true := by
      intro j hj
      rcases List.mem_append.mp hj with h1 | h1
      · exact hp j h1
      · rcases List.mem_singleton.mp h1 with rfl
        exact hpe
    have hl' : (ctx.job_waitlist ++ [(args, envs)]).getLast? = some (args, envs) :=
      List.getLast?_concat ctx.job_waitlist
    have hlen' : (ctx.job_waitlist ++ [(args, envs)]).length ≤
        idleCount (ServerContext.save
          { ctx with job_waitlist := ctx.job_waitlist ++ [(args, envs)] }).slaves := by
      simpa using hlen
    rcases hsch : (ServerContext.save
        { ctx with job_waitlist := ctx.job_waitlist ++ [(args, envs)] }).schedule
      with ⟨c2, sv, oe⟩
    have hdrain := scheduleGo_drain (ctx.job_waitlist ++ [(args, envs)])
      (ServerContext.save { ctx with job_waitlist := ctx.job_waitlist ++ [(args, envs)] })
      none rfl hp'
    have hlast := scheduleGo_last_assigned (ctx.job_waitlist ++ [(args, envs)])
      (ServerContext.save { ctx with job_waitlist := ctx.job_waitlist ++ [(args, envs)] })
      none (args, envs) rfl hl' hp' hlen'
    rw [show (ServerContext.save
        { ctx with job_waitlist := ctx.job_waitlist ++ [(args, envs)] }).schedule =
        scheduleGo (ctx.job_waitlist ++ [(args, envs)]).length
          (ServerContext.save { ctx with job_waitlist := ctx.job_waitlist ++ [(args, envs)] })
          none from rfl] at hsch
    rw [hsch] at hdrain hlast
    obtain ⟨herr, hwl, -⟩ := hdrain
    obtain ⟨w, rj, hsv, hrj, henv, hst⟩ := hlast
    simp only at herr hwl hsv
    subst herr
    have hmin : min (idleCount (ServerContext.save
        { ctx with job_waitlist := ctx.job_waitlist ++ [(args, envs)] }).slaves)
        (ctx.job_waitlist ++ [(args, envs)]).length =
        (ctx.job_waitlist ++ [(args, envs)]).length :=
      Nat.min_eq_right hlen'
    rw [hmin, List.drop_length] at hwl
    rw [add_job_eq_ok ctx args envs c2 sv (by rw [← hsch]; rfl)]
    subst hsv
    rw [hwl]
    exact ⟨w, rfl, rj, hrj, henv, hst⟩

theorem C7_schedule_return_value_witness :
    (ctxAfter3.job_waitlist = [(["./J3.sh"], [])] ∧
     (∀ s ∈ ctxAfter3.slaves, s.status ≠ "idle")) ∧
    ctxAfter3.schedule = (ctxAfter3, ctxAfter3.slaves.getLast?, none) :=
  ⟨⟨by decide, by decide⟩,
   (C7_schedule_return_value ctxAfter3).1 (["./J3.sh"], []) [] (by decide) (by decide)⟩

theorem runAt_parse_error (ctx : ServerContext) (i : Nat) (job : Job) (s : Slave)
    (e : String) (h : ctx.slaves[i]? = some s) (hs : s.status = "idle")
    (hp : parse_key_values job.2 = .error e) :
    ctx.runAt i job =
      ({ ctx with slaves := ctx.slaves.set i { s with status := "busy" } }, some e) := by
  unfold ServerContext.runAt
  rw [h]
  simp only [hs, hp]
  rfl

/-- Claim C10: `add_job` performs no env validation at submission time:
with a malformed or reserved env list and no idle worker, the job is
appended to the waitlist, the state persisted, and the request
acknowledged with the success `{msg}`; the parse error surfaces only
later, when `Slave.run` on an idle worker calls `parse_key_values` for
this job. -/
theorem C10_add_job_defers_validation (ctx : ServerContext) (args envs : List String)
    (hni : ∀ s ∈ ctx.slaves, s.status ≠ "idle")
    (hbad : parseOk envs = false) :
    (ctx.add_job args envs =
      (ServerContext.save { ctx with job_waitlist := ctx.job_waitlist ++ [(args, envs)] },
       .msg "All slaves are busy. Job is added to the waiting list.") ∧
     snapshotCurrent (ctx.add_job args envs).1 ∧
     (ctx.add_job args envs).1.job_waitlist = ctx.job_waitlist ++ [(args, envs)] ∧
     (ctx.add_job args envs).1.slaves = ctx.slaves) ∧
    (∀ (c : ServerContext) (i : Nat) (s : Slave),
      c.slaves[i]? = some s → s.status = "idle" →
      ∃ e, parse_key_values envs = .error e ∧ (c.runAt i (args, envs)).2 = some e) := by
  have hmain : ctx.add_job args envs =
      (ServerContext.save { ctx with job_waitlist := ctx.job_waitlist ++ [(args, envs)] },
       .msg "All slaves are busy. Job is added to the waiting list.") := by
    rcases hwl : ctx.job_waitlist ++ [(args, envs)] with _ | ⟨j0, rest⟩
    · simp at hwl
    · have hni' : ∀ s ∈ (ServerContext.save
          { ctx with job_waitlist := ctx.job_waitlist ++ [(args, envs)] }).slaves,
          (s.status == "idle") = false := by
        intro s hm
        simpa using hni s (by simpa [ServerContext.save] using hm)
      have hsch : (ServerContext.save
          { ctx with job_waitlist := ctx.job_waitlist ++ [(args, envs)] }).schedule =
          (ServerContext.save { ctx with job_waitlist := ctx.job_waitlist ++ [(args, envs)] },
           (match (ServerContext.save
              { ctx with job_waitlist := ctx.job_waitlist ++ [(args, envs)] }).slaves.getLast? with
            | some s => some s
            | none => none), none) := by
        show scheduleGo (ServerContext.save
          { ctx with job_waitlist := ctx.job_waitlist ++ [(args, envs)] }).job_waitlist.length _ none = _
        have hlen : (ServerContext.save
            { ctx with job_waitlist := ctx.job_waitlist ++ [(args, envs)] }).job_waitlist.length =
            rest.length + 1 := by
          show (ctx.job_waitlist ++ [(args, envs)]).length = rest.length + 1
          rw [hwl, List.length_cons]
        rw [hlen]
        have hwl' : (ServerContext.save
            { ctx with job_waitlist := ctx.job_waitlist ++ [(args, envs)] }).job_waitlist =
            j0 :: rest := hwl
        exact scheduleGo_noidle rest.length _ none j0 rest hwl'
          (List.findIdx?_eq_none_iff.mpr hni')
      rw [add_job_eq_ok ctx args envs _ _ hsch]
      have hpos : 0 < (ServerContext.save
          { ctx with job_waitlist := ctx.job_waitlist ++ [(args, envs)] }).job_waitlist.length := by
        show 0 < (ctx.job_waitlist ++ [(args, envs)]).length
        rw [hwl]
        exact Nat.succ_pos rest.length
      rw [if_pos hpos, hwl]
  refine ⟨⟨hmain, ?_, ?_, ?_⟩, ?_⟩
  · rw [hmain]
    exact save_snapshotCurrent _
  · rw [hmain]
    rfl
  · rw [hmain]
    rfl
  · intro c i s hg hs
    rcases hp : parse_key_values envs with e | d
    · exact ⟨e, rfl, by rw [runAt_parse_error c i (args, envs) s e hg hs hp]⟩
    · exfalso
      unfold parseOk at hbad
      rw [hp] at hbad
      simp at hbad

theorem C10_add_job_defers_validation_witness :
    ((∀ s ∈ ctxAfter3.slaves, s.status ≠ "idle") ∧ parseOk ["JOB_ID=x"] = false) ∧
    (ctxAfter3.add_job ["./job.sh"] ["JOB_ID=x"]).2 =
      .msg "All slaves are busy. Job is added to the waiting list." :=
  ⟨⟨by decide, by decide⟩, by
    rw [(C10_add_job_defers_validation ctxAfter3 ["./job.sh"] ["JOB_ID=x"]
      (by decide) (by decide)).1.1]⟩

theorem loadSlaveJson_toJson (s : Slave) (he : s.envs = [])
    (hr : s.running_job = none) : loadSlaveJson s.toJson = .ok s := by
  unfold loadSlaveJson Slave.toJson
  simp only [he, hr, EnvsJson.pyIter]
  show Except.ok _ = _
  cases s with
  | mk ip envs status running_job raf =>
    simp only at he hr
    subst he
    subst hr
    cases raf <;> rfl

theorem loadSlavesGo_roundtrip (l : List Slave) :
    ∀ (ctx : ServerContext),
    (∀ s ∈ l, s.envs = [] ∧ s.running_job = none) →
    loadSlavesGo ctx (l.map Slave.toJson) =
      (ServerContext.save { ctx with slaves := ctx.slaves ++ l }, .msg "ok") := by
  induction l with
  | nil =>
    intro ctx _
    simp only [List.map_nil, loadSlavesGo, List.append_nil]
  | cons s rest ih =>
    intro ctx hl
    obtain ⟨he, hr⟩ := hl s (List.mem_cons_self s rest)
    simp only [List.map_cons, loadSlavesGo,
      loadSlaveJson_toJson s he hr]
    rw [ih ({ ctx with slaves := ctx.slaves ++ [s] }) (fun t ht => hl t (List.mem_cons_of_mem s ht))]
    simp [List.append_assoc]

/-- Claim C2 (amended): `status` followed by `load_status` on its exact
output is a no-op on the observable state (same workers, same waitlist;
only the snapshot file is rewritten) PROVIDED every worker has an empty
`env_defaults` and no running job. (Otherwise the round trip raises on
the serialized env dict or exchanges the running job's `script`/`envs`
fields — see the counterexample.) -/
theorem C2_roundtrip_empty_envs (ctx : ServerContext)
    (h : ∀ s ∈ ctx.slaves, s.envs = [] ∧ s.running_job = none) :
    ctx.load_status ctx.toJSON = (ctx.save, .msg "ok") ∧
    (ctx.load_status ctx.toJSON).1.slaves = ctx.slaves ∧
    (ctx.load_status ctx.toJSON).1.job_waitlist = ctx.job_waitlist := by
  have hmain : ctx.load_status ctx.toJSON = (ctx.save, .msg "ok") := by
    show loadSlavesGo _ (ctx.slaves.map Slave.toJson) = _
    rw [loadSlavesGo_roundtrip ctx.slaves _ h]
    rfl
  exact ⟨hmain, by rw [hmain]; rfl, by rw [hmain]; rfl⟩

theorem C2_roundtrip_empty_envs_witness :
    (∀ s ∈ ctxOneIdle.slaves, s.envs = [] ∧ s.running_job = none) ∧
    ctxOneIdle.load_status ctxOneIdle.toJSON = (ctxOneIdle.save, .msg "ok") :=
  ⟨by decide, (C2_roundtrip_empty_envs ctxOneIdle (by decide)).1⟩

theorem schedule_map_ip (ctx : ServerContext) :
    ctx.schedule.1.slaves.map Slave.ip = ctx.slaves.map Slave.ip :=
  scheduleGo_map_ip ctx.job_waitlist.length ctx none

theorem add_slave_eq_ok (ctx : ServerContext) (ip : String) (envs : List String)
    (d : Env) (c2 : ServerContext) (sv : Option Slave)
    (hdup : ctx.slaves.any (fun s => s.ip == ip) = false)
    (hpe : parse_key_values envs = .ok d)
    (hsch : (ServerContext.save { ctx with slaves := ctx.slaves ++
        [{ ip := ip, envs := d, status := "idle", running_job := none,
           remove_after_finish := false }] }).schedule = (c2, sv, none)) :
    ctx.add_slave ip envs = (c2, .msg "ok") := by
  simp only [ServerContext.add_slave, hdup, Bool.false_eq_true, if_false, hpe]
  rw [hsch]

theorem add_slave_eq_err (ctx : ServerContext) (ip : String) (envs : List String)
    (d : Env) (c2 : ServerContext) (sv : Option Slave) (e : String)
    (hdup : ctx.slaves.any (fun s => s.ip == ip) = false)
    (hpe : parse_key_values envs = .ok d)
    (hsch : (ServerContext.save { ctx with slaves := ctx.slaves ++
        [{ ip := ip, envs := d, status := "idle", running_job := none,
           remove_after_finish := false }] }).schedule = (c2, sv, some e)) :
    ctx.add_slave ip envs = (c2, .err e) := by
  simp only [ServerContext.add_slave, hdup, Bool.false_eq_true, if_false, hpe]
  rw [hsch]

theorem loadSlaveJson_ip (sj : SlaveJson) (s : Slave)
    (h : loadSlaveJson sj = .ok s) : s.ip = sj.ip := by
  unfold loadSlaveJson at h
  rcases hp : parse_key_values sj.envs.pyIter with e | d
  · rw [hp] at h
    simp at h
  · rw [hp] at h
    rcases hr : sj.running_job with _ | ji <;> rw [hr] at h <;>
      simp only [Except.ok.injEq] at h <;> rw [← h]

theorem loadSlavesGo_ip_sublist (l : List SlaveJson) :
    ∀ (ctx : ServerContext),
    List.Sublist ((loadSlavesGo ctx l).1.slaves.map Slave.ip)
      (ctx.slaves.map Slave.ip ++ l.map SlaveJson.ip) := by
  induction l with
  | nil =>
    intro ctx
    simp only [loadSlavesGo, List.map_nil, List.append_nil]
    exact List.Sublist.refl _
  | cons sj rest ih =>
    intro ctx
    simp only [loadSlavesGo]
    rcases hj : loadSlaveJson sj with e | s
    · exact List.sublist_append_left _ _
    · have hip := loadSlaveJson_ip sj s hj
      have := ih ({ ctx with slaves := ctx.slaves ++ [s] })
      simp only [List.map_append, List.map_cons, List.map_nil] at this ⊢
      rw [hip] at this
      simpa [List.append_assoc] using this

/-- Claim C6 (amended): `add_slave` preserves the uniqueness of worker
addresses (a duplicate is rejected before any mutation); `load_status`
replaces the workers with (a prefix of) the file's records and performs
NO duplicate check of its own, so it preserves uniqueness only when the
addresses in the file are themselves unique — a file with duplicate
addresses produces a store with duplicate addresses (see the
counterexample). -/
theorem C6_address_uniqueness (ctx : ServerContext) (ip : String)
    (envs : List String) (j : StatusJson)
    (hnd : (ctx.slaves.map Slave.ip).Nodup) :
    ((ctx.add_slave ip envs).1.slaves.map Slave.ip).Nodup ∧
    ((j.slaves.map SlaveJson.ip).Nodup →
      ((ctx.load_status j).1.slaves.map Slave.ip).Nodup) := by
  constructor
  · by_cases hdup : ctx.slaves.any (fun s => s.ip == ip) = true
    · simp only [ServerContext.add_slave, hdup, if_true]
      exact hnd
    · rw [Bool.not_eq_true] at hdup
      have hnotin : ip ∉ ctx.slaves.map Slave.ip := by
        intro hmem
        obtain ⟨s, hs, hip⟩ := List.mem_map.mp hmem
        have := List.any_eq_false.mp hdup s hs
        simp [hip] at this
      rcases hpe : parse_key_values envs with e | d
      · simp only [ServerContext.add_slave, hdup, Bool.false_eq_true, if_false, hpe]
        exact hnd
      · rcases hsch : (ServerContext.save { ctx with slaves := ctx.slaves ++
            [{ ip := ip, envs := d, status := "idle", running_job := none,
               remove_after_finish := false }] }).schedule with ⟨c2, sv, oe⟩
        have hm : c2.slaves.map Slave.ip = ctx.slaves.map Slave.ip ++ [ip] := by
          have h1 := schedule_map_ip (ServerContext.save { ctx with slaves := ctx.slaves ++
            [{ ip := ip, envs := d, status := "idle", running_job := none,
               remove_after_finish := false }] })
          rw [hsch] at h1
          simpa [ServerContext.save] using h1
        have hnd2 : (c2.slaves.map Slave.ip).Nodup := by
          rw [hm]
          simp [List.nodup_append, hnd, hnotin, List.disjoint_singleton]
        cases oe with
        | none =>
          rw [add_slave_eq_ok ctx ip envs d c2 sv hdup hpe hsch]
          exact hnd2
        | some e =>
          rw [add_slave_eq_err ctx ip envs d c2 sv e hdup hpe hsch]
          exact hnd2
  · intro hjnd
    have hsub := loadSlavesGo_ip_sublist j.slaves
      ({ ctx with job_waitlist := j.job_waitlist, slaves := [] })
    simp only [List.map_nil, List.nil_append] at hsub
    exact List.Nodup.sublist hsub hjnd

theorem C6_address_uniqueness_witness :
    ((ctxOneIdle.slaves.map Slave.ip).Nodup ∧
     ((dupStatusJson.slaves.map SlaveJson.ip).Nodup → False) ∧
     (((ctxOneIdle.add_slave "10.0.0.9" []).1.slaves.map Slave.ip).Nodup)) := by
  refine ⟨by decide, by decide, ?_⟩
  exact (C6_address_uniqueness ctxOneIdle "10.0.0.9" [] dupStatusJson (by decide)).1

theorem removeSlaveLoop_nomatch (ip : String) (w k : Bool) (l : List Slave)
    (h : ∀ t ∈ l, t.ip ≠ ip) : removeSlaveLoop ip w k l = .ok (l, false) := by
  induction l with
  | nil => rfl
  | cons t rest ih =>
    have hbeq : (t.ip == ip) = false := by
      simp [h t (List.mem_cons_self t rest)]
    simp only [removeSlaveLoop, hbeq, Bool.false_eq_true, if_false]
    rw [ih (fun u hu => h u (List.mem_cons_of_mem t hu))]
    rfl

theorem removeSlaveLoop_prefix (ip : String) (w k : Bool) (pre : List Slave)
    (hpre : ∀ t ∈ pre, t.ip ≠ ip) (rest : List Slave) :
    removeSlaveLoop ip w k (pre ++ rest) =
      match removeSlaveLoop ip w k rest with
      | .ok (l, r) => .ok (pre ++ l, r)
      | .error e => .error e := by
  induction pre with
  | nil =>
    simp only [List.nil_append]
    rcases hres : removeSlaveLoop ip w k rest with e | ⟨l, r⟩ <;> rfl
  | cons t pre' ih =>
    have hbeq : (t.ip == ip) = false := by
      simp [hpre t (List.mem_cons_self t pre')]
    simp only [List.cons_append, removeSlaveLoop, hbeq, Bool.false_eq_true, if_false,
      List.append_eq]
    rw [ih (fun u hu => hpre u (List.mem_cons_of_mem t hu))]
    rcases hres : removeSlaveLoop ip w k rest with e | ⟨l, r⟩ <;> rfl

theorem removeSlaveLoop_marked (ip : String) (w k : Bool) (s : Slave)
    (post : List Slave) (hip : s.ip = ip) (hbusy : s.status ≠ "idle")
    (hraf : s.remove_after_finish = true) :
    removeSlaveLoop ip w k (s :: post) = .error alreadyMarkedMsg := by
  have hbeq : (s.ip == ip) = true := by simp [hip]
  have hbi : (s.status == "idle") = false := by simp [hbusy]
  simp [removeSlaveLoop, hbeq, hbi, hraf]

theorem removeSlaveLoop_busy_nowait (ip : String) (s : Slave) (post : List Slave)
    (hip : s.ip = ip) (hbusy : s.status ≠ "idle")
    (hraf : s.remove_after_finish = false) :
    removeSlaveLoop ip false false (s :: post) = .error busySlaveMsg := by
  have hbeq : (s.ip == ip) = true := by simp [hip]
  have hbi : (s.status == "idle") = false := by simp [hbusy]
  simp [removeSlaveLoop, hbeq, hbi, hraf]

theorem removeSlaveLoop_busy_wait (ip : String) (s : Slave) (post : List Slave)
    (hip : s.ip = ip) (hbusy : s.status ≠ "idle")
    (hraf : s.remove_after_finish = false)
    (hpost : ∀ t ∈ post, t.ip ≠ ip) :
    removeSlaveLoop ip true false (s :: post) =
      .ok ({ s with remove_after_finish := true } :: post, true) := by
  have hbeq : (s.ip == ip) = true := by simp [hip]
  have hbi : (s.status == "idle") = false := by simp [hbusy]
  simp only [removeSlaveLoop, hbeq, if_true, hbi, Bool.false_eq_true, if_false, hraf]
  rw [removeSlaveLoop_nomatch ip true false post hpost]
  rfl

theorem remove_slave_eq_error (ctx : ServerContext) (ip : String) (w k : Bool)
    (e : String) (h : removeSlaveLoop ip w k ctx.slaves = .error e) :
    ctx.remove_slave ip w k = (ctx, .err e) := by
  simp only [ServerContext.remove_slave]
  rw [h]

theorem remove_slave_eq_ok_removed (ctx : ServerContext) (ip : String) (w k : Bool)
    (l : List Slave) (h : removeSlaveLoop ip w k ctx.slaves = .ok (l, true)) :
    ctx.remove_slave ip w k = (ServerContext.save { ctx with slaves := l }, .msg "ok") := by
  simp only [ServerContext.remove_slave]
  rw [h]
  rfl

theorem job_finished_raf_ips (ctx : ServerContext) (pre post : List Slave) (s : Slave)
    (hsl : ctx.slaves = pre ++ s :: post) (hraf : s.remove_after_finish = true) :
    (ctx.job_finished pre.length).slaves.map Slave.ip =
      pre.map Slave.ip ++ post.map Slave.ip := by
  have hg : ctx.slaves[pre.length]? = some s := by
    rw [hsl, List.getElem?_append_right (Nat.le_refl pre.length)]
    simp
  unfold ServerContext.job_finished
  rw [hg]
  simp only [hraf, if_true]
  rw [schedule_map_ip]
  show (ctx.slaves.eraseIdx pre.length).map Slave.ip = _
  rw [hsl, List.eraseIdx_append_of_length_le (Nat.le_refl pre.length)]
  simp

/-- Claim C5: for a busy worker at `ip`, not yet marked, and the only
worker with that address: plain `remove_slave` raises the
use-`--wait`-or-`--kill` error and leaves the state unchanged; with
`wait` it answers `{msg: ok}` and only sets `remove_after_finish`,
keeping the worker busy in the list; and when its job then completes the
worker is removed, so no worker (and no `status` entry) with that
address remains. -/
theorem C5_remove_busy_slave (ctx : ServerContext) (ip : String)
    (pre post : List Slave) (s : Slave)
    (hsl : ctx.slaves = pre ++ s :: post)
    (hip : s.ip = ip) (hst : s.status = "busy")
    (hraf : s.remove_after_finish = false)
    (hpre : ∀ t ∈ pre, t.ip ≠ ip) (hpost : ∀ t ∈ post, t.ip ≠ ip) :
    ctx.remove_slave ip false false = (ctx, .err busySlaveMsg) ∧
    ctx.remove_slave ip true false =
      (ServerContext.save
        { ctx with slaves := pre ++ { s with remove_after_finish := true } :: post },
       .msg "ok") ∧
    (∀ t ∈ ((ServerContext.save
        { ctx with slaves := pre ++ { s with remove_after_finish := true } :: post
        }).job_finished pre.length).slaves, t.ip ≠ ip) ∧
    (∀ sj ∈ ((ServerContext.save
        { ctx with slaves := pre ++ { s with remove_after_finish := true } :: post
        }).job_finished pre.length).toJSON.slaves, sj.ip ≠ ip) := by
  have hbusy : s.status ≠ "idle" := by rw [hst]; simp
  have hmap : (((ServerContext.save
      { ctx with slaves := pre ++ { s with remove_after_finish := true } :: post
      }).job_finished pre.length).slaves.map Slave.ip) =
      pre.map Slave.ip ++ post.map Slave.ip :=
    job_finished_raf_ips _ pre post ({ s with remove_after_finish := true }) rfl rfl
  have hniptail : ∀ t ∈ ((ServerContext.save
      { ctx with slaves := pre ++ { s with remove_after_finish := true } :: post
      }).job_finished pre.length).slaves, t.ip ≠ ip := by
    intro t ht heq
    have hmem : t.ip ∈ pre.map Slave.ip ++ post.map Slave.ip := by
      rw [← hmap]
      exact List.mem_map_of_mem Slave.ip ht
    rcases List.mem_append.mp hmem with hm | hm <;>
      obtain ⟨u, hu, hui⟩ := List.mem_map.mp hm
    · exact hpre u hu (by rw [hui, heq])
    · exact hpost u hu (by rw [hui, heq])
  refine ⟨?_, ?_, hniptail, ?_⟩
  · have hl : removeSlaveLoop ip false false ctx.slaves = .error busySlaveMsg := by
      rw [hsl, removeSlaveLoop_prefix ip false false pre hpre (s :: post),
        removeSlaveLoop_busy_nowait ip s post hip hbusy hraf]
    exact remove_slave_eq_error ctx ip false false _ hl
  · have hl : removeSlaveLoop ip true false ctx.slaves =
        .ok (pre ++ { s with remove_after_finish := true } :: post, true) := by
      rw [hsl, removeSlaveLoop_prefix ip true false pre hpre (s :: post),
        removeSlaveLoop_busy_wait ip s post hip hbusy hraf hpost]
    exact remove_slave_eq_ok_removed ctx ip true false _ hl
  · intro sj hsj
    obtain ⟨t, ht, htj⟩ := List.mem_map.mp hsj
    have : sj.ip = t.ip := by rw [← htj]; rfl
    rw [this]
    exact hniptail t ht

/-- Claim C9: for a busy worker already marked for removal (preceded only
by workers with other addresses), `remove_slave` raises the
already-marked error before ever looking at the options, so even
`kill = true` cannot reach the kill branch and the state — the worker
included — is left unchanged. -/
theorem C9_double_removal_blocks_kill (ctx : ServerContext) (ip : String)
    (pre post : List Slave) (s : Slave)
    (hsl : ctx.slaves = pre ++ s :: post)
    (hip : s.ip = ip) (hst : s.status = "busy")
    (hraf : s.remove_after_finish = true)
    (hpre : ∀ t ∈ pre, t.ip ≠ ip) :
    ∀ wait kill, ctx.remove_slave ip wait kill = (ctx, .err alreadyMarkedMsg) ∧
      s ∈ (ctx.remove_slave ip wait kill).1.slaves := by
  intro wait kill
  have hbusy : s.status ≠ "idle" := by rw [hst]; simp
  have hl : removeSlaveLoop ip wait kill ctx.slaves = .error alreadyMarkedMsg := by
    rw [hsl, removeSlaveLoop_prefix ip wait kill pre hpre (s :: post),
      removeSlaveLoop_marked ip wait kill s post hip hbusy hraf]
  have hmain := remove_slave_eq_error ctx ip wait kill _ hl
  refine ⟨hmain, ?_⟩
  rw [hmain, hsl]
  exact List.mem_append_right pre (List.mem_cons_self s post)

/-- The first worker of `ctxAfter3` (busy with J1). -/
def slaveA : Slave :=
  { ip := "10.0.0.1", envs := [], status := "busy",
    running_job := some
      { id := "1000", script := .envV [], envs := .argvV ["./J1.sh"], pid := 50,
        log_file := "logs/job_1000.txt" },
    remove_after_finish := false }

/-- The second worker of `ctxAfter3` (busy with J2). -/
def slaveB : Slave :=
  { ip := "10.0.0.2", envs := [], status := "busy",
    running_job := some
      { id := "1001", script := .envV [], envs := .argvV ["./J2.sh"], pid := 51,
        log_file := "logs/job_1001.txt" },
    remove_after_finish := false }

/-- `ctxAfter3` after `remove_slave 10.0.0.1 --wait`. -/
def ctxMarked : ServerContext := (ctxAfter3.remove_slave "10.0.0.1" true false).1

theorem C5_remove_busy_slave_witness :
    (ctxAfter3.slaves = [] ++ slaveA :: [slaveB] ∧ slaveA.ip = "10.0.0.1" ∧
     slaveA.status = "busy" ∧ slaveA.remove_after_finish = false) ∧
    ctxAfter3.remove_slave "10.0.0.1" false false = (ctxAfter3, .err busySlaveMsg) :=
  ⟨⟨by decide, by decide, by decide, by decide⟩,
   (C5_remove_busy_slave ctxAfter3 "10.0.0.1" [] [slaveB] slaveA (by decide) (by decide)
     (by decide) (by decide) (by decide) (by decide)).1⟩

theorem C9_double_removal_blocks_kill_witness :
    (ctxMarked.slaves = [] ++ { slaveA with remove_after_finish := true } :: [slaveB] ∧
     ({ slaveA with remove_after_finish := true } : Slave).remove_after_finish = true) ∧
    ctxMarked.remove_slave "10.0.0.1" false true = (ctxMarked, .err alreadyMarkedMsg) :=
  ⟨⟨by decide, by decide⟩,
   (C9_double_removal_blocks_kill ctxMarked "10.0.0.1" [] [slaveB]
     ({ slaveA with remove_after_finish := true }) (by decide) (by decide) (by decide)
     (by decide) (by decide) false true).1⟩

theorem schedule_snapshot (ctx : ServerContext) (hc : snapshotCurrent ctx)
    (he : ctx.schedule.2.2 = none) : snapshotCurrent ctx.schedule.1 :=
  scheduleGo_snapshot ctx.job_waitlist.length ctx none hc he

theorem snap_add_job (ctx : ServerContext) (a e : List String) (m : String)
    (h : (ctx.add_job a e).2 = .msg m) : snapshotCurrent (ctx.add_job a e).1 := by
  rcases hsch : (ServerContext.save
      { ctx with job_waitlist := ctx.job_waitlist ++ [(a, e)] }).schedule with ⟨c2, sv, oe⟩
  cases oe with
  | some er =>
    rw [add_job_eq_err ctx a e c2 sv er hsch] at h
    simp at h
  | none =>
    have hc2 : snapshotCurrent c2 := by
      have h1 := schedule_snapshot
        (ServerContext.save { ctx with job_waitlist := ctx.job_waitlist ++ [(a, e)] })
        (save_snapshotCurrent _) (by rw [hsch])
      rw [hsch] at h1
      exact h1
    rw [add_job_eq_ok ctx a e c2 sv hsch]
    split
    · exact hc2
    · cases sv <;> exact hc2

theorem snap_remove_job (ctx : ServerContext) (a e : List String)
    (hc : snapshotCurrent ctx) : snapshotCurrent (ctx.remove_job a e).1 := by
  unfold ServerContext.remove_job
  split
  · exact save_snapshotCurrent _
  · exact hc

theorem snap_add_slave (ctx : ServerContext) (ip : String) (envs : List String)
    (m : String) (hc : snapshotCurrent ctx)
    (h : (ctx.add_slave ip envs).2 = .msg m) :
    snapshotCurrent (ctx.add_slave ip envs).1 := by
  by_cases hdup : ctx.slaves.any (fun s => s.ip == ip) = true
  · simp only [ServerContext.add_slave, hdup, if_true]
    exact hc
  · rw [Bool.not_eq_true] at hdup
    rcases hpe : parse_key_values envs with er | d
    · simp only [ServerContext.add_slave, hdup, Bool.false_eq_true, if_false, hpe]
      exact hc
    · rcases hsch : (ServerContext.save { ctx with slaves := ctx.slaves ++
          [{ ip := ip, envs := d, status := "idle", running_job := none,
             remove_after_finish := false }] }).schedule with ⟨c2, sv, oe⟩
      cases oe with
      | some er =>
        rw [add_slave_eq_err ctx ip envs d c2 sv er hdup hpe hsch] at h
        simp at h
      | none =>
        have hc2 : snapshotCurrent c2 := by
          have h1 := schedule_snapshot
            (ServerContext.save { ctx with slaves := ctx.slaves ++
              [{ ip := ip, envs := d, status := "idle", running_job := none,
                 remove_after_finish := false }] })
            (save_snapshotCurrent _) (by rw [hsch])
          rw [hsch] at h1
          exact h1
        rw [add_slave_eq_ok ctx ip envs d c2 sv hdup hpe hsch]
        exact hc2

theorem snap_remove_slave (ctx : ServerContext) (ip : String) (w k : Bool)
    (hc : snapshotCurrent ctx) : snapshotCurrent (ctx.remove_slave ip w k).1 := by
  unfold ServerContext.remove_slave
  rcases hl : removeSlaveLoop ip w k ctx.slaves with e | ⟨l, removed⟩
  · exact hc
  · cases removed <;> exact save_snapshotCurrent _

theorem snap_loadSlavesGo (l : List SlaveJson) :
    ∀ (ctx : ServerContext) (m : String),
    (loadSlavesGo ctx l).2 = .msg m → snapshotCurrent (loadSlavesGo ctx l).1 := by
  induction l with
  | nil => intro ctx m _; exact save_snapshotCurrent _
  | cons sj rest ih =>
    intro ctx m h
    simp only [loadSlavesGo] at h ⊢
    rcases hj : loadSlaveJson sj with e | s
    · rw [hj] at h
      simp at h
    · rw [hj] at h
      exact ih _ m h

theorem snap_job_finishedE (ctx : ServerContext) (i : Nat)
    (hc : snapshotCurrent ctx) (h : (ctx.job_finishedE i).2 = none) :
    snapshotCurrent (ctx.job_finishedE i).1 := by
  unfold ServerContext.job_finishedE at h ⊢
  rcases hg : ctx.slaves[i]? with _ | s
  · exact hc
  · rw [hg] at h
    by_cases hraf : s.remove_after_finish = true
    · simp only [hraf, if_true] at h ⊢
      exact schedule_snapshot _ (save_snapshotCurrent _) h
    · rw [Bool.not_eq_true] at hraf
      simp only [hraf, Bool.false_eq_true, if_false] at h ⊢
      exact schedule_snapshot _ (save_snapshotCurrent _) h

theorem setstate_getstate (s : Slave) : Slave.setstate s.getstate = s.toLoaded := rfl

/-- Claim C3 (amended): after every mutating operation that completes
without an exception (a success `{msg}` response; for job completion, no
exception escaping the rescheduling), the snapshot written by `_save`
equals the pickle of the in-memory `(workers, waitlist)`, and unpickling
it restores exactly each worker's persisted fields
`(address, status, running_job, remove_after_finish)` — but NOT
`env_defaults`, which `__getstate__` does not write (see the
counterexample) — together with the waitlist. -/
theorem C3_snapshot_after_mutation (ctx : ServerContext) (op : MutOp) (m : String)
    (hc : snapshotCurrent ctx) (h : (applyOp ctx op).2 = .msg m) :
    snapshotCurrent (applyOp ctx op).1 ∧
    (applyOp ctx op).1.snapshot.map (fun p => (p.1.map Slave.setstate, p.2)) =
      some ((applyOp ctx op).1.slaves.map Slave.toLoaded,
            (applyOp ctx op).1.job_waitlist) := by
  have hcur : snapshotCurrent (applyOp ctx op).1 := by
    cases op with
    | addJob a e => exact snap_add_job ctx a e m h
    | removeJob a e => exact snap_remove_job ctx a e hc
    | addSlave ip envs => exact snap_add_slave ctx ip envs m hc h
    | removeSlave ip w k => exact snap_remove_slave ctx ip w k hc
    | loadStatus j => exact snap_loadSlavesGo j.slaves _ m h
    | jobFinished i =>
      show snapshotCurrent (applyOp ctx (.jobFinished i)).1
      simp only [applyOp] at h ⊢
      rcases hj : ctx.job_finishedE i with ⟨c, oe⟩
      cases oe with
      | none =>
        have h1 := snap_job_finishedE ctx i hc (by rw [hj])
        rw [hj] at h1
        exact h1
      | some e =>
        rw [hj] at h
        simp at h
  refine ⟨hcur, ?_⟩
  rw [hcur]
  simp [List.map_map, Function.comp, Slave.setstate, Slave.getstate, Slave.toLoaded]

theorem C3_snapshot_after_mutation_witness :
    (snapshotCurrent ctxOneIdle ∧
     (applyOp ctxOneIdle (.addSlave "10.0.0.9" [])).2 = .msg "ok") ∧
    snapshotCurrent (applyOp ctxOneIdle (.addSlave "10.0.0.9" [])).1 :=
  ⟨⟨by decide, by decide⟩,
   (C3_snapshot_after_mutation ctxOneIdle (.addSlave "10.0.0.9" []) "ok"
     (by decide) (by decide)).1⟩
